import Mathlib

/-!
# hargo: replay-and-measurement engine

A shallow embedding of `load.go` (`LoadTest`, `processEntries`) and
`influxdb.go` (`NewInfluxDBClient`, `funcName`, `WritePoints`) together with
theorems about batching, tag extraction, sink failures and the wait group.

Conventions of the embedding.

* A Go `map[string]V` is an association list with unique keys (`GoMap V`);
  `m[k] = v` is `GoMap.set`, `delete(m, k)` is `GoMap.delete` and `m[k]` is
  `GoMap.get?`.
* Calls that leave the program (the HTTP round trip, the clock, the InfluxDB
  client library) are oracles, passed in as records of functions.
* `log.Fatal*` (logrus) logs and exits the process; a failed type assertion
  panics.  Both are recorded as an `Abort`, after which nothing else runs.
* Go strings are modelled by Lean strings; the only character the program
  inspects is `/`, a single byte in UTF-8.
-/

namespace Hargo

/-! ## Go maps -/

/-- Go `map[string]V`, as an association list with unique keys. -/
abbrev GoMap (V : Type) := List (String × V)

/-- Map lookup `m[k]`, with `none` when the key is absent. -/
def GoMap.get? {V : Type} (m : GoMap V) (k : String) : Option V :=
  match m with
  | [] => none
  | (k', v) :: rest => if k' = k then some v else GoMap.get? rest k

/-- Map assignment `m[k] = v`: overwrite the binding of `k`, or add one. -/
def GoMap.set {V : Type} (m : GoMap V) (k : String) (v : V) : GoMap V :=
  match m with
  | [] => [(k, v)]
  | (k', v') :: rest => if k' = k then (k, v) :: rest else (k', v') :: GoMap.set rest k v

/-- Map deletion `delete(m, k)`. -/
def GoMap.delete {V : Type} (m : GoMap V) (k : String) : GoMap V :=
  match m with
  | [] => []
  | (k', v') :: rest => if k' = k then GoMap.delete rest k else (k', v') :: GoMap.delete rest k

/-- Values iterated by `for _, v := range m`. -/
def GoMap.rangeValues {V : Type} (m : GoMap V) : List V := m.map Prod.snd

/-! ## Measurements -/

/-- The dynamic values stored in a measurement map (`interface{}`). -/
inductive Value where
  | str (s : String)
  | int (n : Int)
  | time (t : Int)
  | tags (m : GoMap String)
  deriving DecidableEq, Repr

/-- One test result, `map[string]interface{}`. -/
abbrev Measurement := GoMap Value

/-- How a run of code stops early: `log.Fatal*` exits the process, a failed
type assertion panics. -/
inductive Abort where
  | fatal
  | panic
  deriving DecidableEq, Repr

/-! ## influxdb.go -/

/-- An InfluxDB point as built by `client.NewPoint`. -/
structure Point where
  name : String
  tags : GoMap String
  fields : GoMap Value
  time : Int
  deriving DecidableEq, Repr

/-- What the InfluxDB client library answers during one `WritePoints` call. -/
structure Sink where
  /-- Whether `client.NewBatchPoints` returns an error. -/
  newBatchPointsErr : Bool
  /-- Whether `client.NewPoint` returns an error for these tags and fields. -/
  newPointErr : GoMap String → GoMap Value → Bool
  /-- Result of `time.Now()` for the point at a position of the batch. -/
  now : Nat → Int
  /-- Whether `c.Write(bp)` returns an error for this batch of points. -/
  writeErr : List Point → Bool

/-- Outcome of a `WritePoints` call: the caller's maps as the call leaves
them, the points added to the batch, and how the call ended (`none`: it
returned `nil`). -/
structure WriteResult where
  tr : List Measurement
  points : List Point
  status : Option Abort
  deriving DecidableEq, Repr

/-- The `for i := 0; i < len(tr); i++` loop of `WritePoints`, from position
`i` on, with `bp` the points added so far. -/
def WritePoints.loop (s : Sink) (i : Nat) (tr : List Measurement) (bp : List Point) :
    WriteResult :=
  match tr with
  | [] => { tr := [], points := bp, status := none }
  | fields :: rest =>
    match GoMap.get? fields "tags" with
    | some (Value.tags tags) =>
      let fields1 := GoMap.delete fields "tags"
      if s.newPointErr tags fields1 then
        { tr := fields1 :: rest, points := bp, status := some Abort.fatal }
      else
        let pt : Point := { name := "test_result", tags := tags, fields := fields1, time := s.now i }
        let r := WritePoints.loop s (i + 1) rest (bp ++ [pt])
        { r with tr := fields1 :: r.tr }
    | _ => { tr := fields :: rest, points := bp, status := some Abort.panic }

/-- Model of `WritePoints` in `influxdb.go`. -/
def WritePoints (s : Sink) (tr : List Measurement) : WriteResult :=
  if s.newBatchPointsErr then
    { tr := tr, points := [], status := some Abort.fatal }
  else
    let r := WritePoints.loop s 0 tr []
    match r.status with
    | some a => { r with status := some a }
    | none =>
      if s.writeErr r.points then
        { r with status := some Abort.fatal }
      else
        { r with status := none }

/-- A URL as `NewInfluxDBClient` reads it (`u.Scheme`, `u.Hostname()`,
`u.Port()`, `u.Path`). -/
structure URL where
  Scheme : String
  Hostname : String
  Port : String
  Path : String
  deriving DecidableEq, Repr

/-- The `client.HTTPConfig` fields that `funcName` fills in. -/
structure HTTPConfig where
  Addr : String
  Username : String
  Password : String
  deriving DecidableEq, Repr

/-- Model of `funcName` in `influxdb.go`. -/
def funcName (addr user password : String) : HTTPConfig :=
  if user ≠ "" ∧ password ≠ "" then
    { Addr := addr, Username := user, Password := password }
  else
    { Addr := addr, Username := "", Password := "" }

/-- Go `strings.Replace(s, "", new, n)`: `new` is inserted before each
character and at the end, for at most `n` insertions when `n ≥ 0`. -/
def stringsReplaceEmpty (new : List Char) : Int → List Char → List Char
  | n, [] => if n = 0 then [] else new
  | n, c :: cs => if n = 0 then c :: cs else new ++ c :: stringsReplaceEmpty new (n - 1) cs

/-- Go `strings.Replace(s, old, new, n)` for a non-empty `old`, scanning `s`
from the left: the first `n` non-overlapping occurrences of `old` are
replaced, all of them when `n < 0`.  The first argument bounds the number of
scanning steps. -/
def stringsReplaceScan (old new : List Char) : Nat → Int → List Char → List Char
  | 0, _, s => s
  | _ + 1, _, [] => []
  | fuel + 1, n, c :: cs =>
    if n = 0 then c :: cs
    else if old.isPrefixOf (c :: cs) then
      new ++ stringsReplaceScan old new fuel (n - 1) ((c :: cs).drop old.length)
    else c :: stringsReplaceScan old new fuel n cs

/-- Go `strings.Replace`. -/
def stringsReplace (s old new : String) (n : Int) : String :=
  if old = new ∨ n = 0 then s
  else if old.data = [] then String.mk (stringsReplaceEmpty new.data n s.data)
  else String.mk (stringsReplaceScan old.data new.data s.data.length n s.data)

/-- What the InfluxDB client library answers during `NewInfluxDBClient`. -/
structure ClientEnv where
  /-- Whether `client.NewHTTPClient` returns an error for this configuration. -/
  newHTTPClientErr : HTTPConfig → Bool
  /-- Whether `queryDB` returns an error for this command and database. -/
  queryErr : String → String → Bool

/-- Result of `NewInfluxDBClient`: the global `db` as the call leaves it, and
either an abort or the returned pair (client, error). -/
structure ClientResult where
  db : String
  client : Option HTTPConfig
  err : Bool
  status : Option Abort
  deriving DecidableEq, Repr

/-- Model of `NewInfluxDBClient` in `influxdb.go`; `db0` is the global `db`
before the call. -/
def NewInfluxDBClient (env : ClientEnv) (db0 : String) (u : URL) (user password : String) :
    ClientResult :=
  let addr := u.Scheme ++ "://" ++ u.Hostname ++ ":" ++ u.Port
  let cfg := funcName addr user password
  if env.newHTTPClientErr cfg then
    { db := db0, client := none, err := true, status := some Abort.fatal }
  else
    let db := stringsReplace u.Path "/" "" (-1)
    let cmd := "CREATE DATABASE " ++ db
    if env.queryErr cmd db then
      { db := db, client := none, err := true, status := none }
    else
      { db := db, client := some cfg, err := false, status := none }

/-! ## load.go -/

/-- The parts of a built `*http.Request` that `processEntries` reads. -/
structure Request where
  /-- Result of `req.URL.String()`. -/
  URL : String
  /-- Field `req.Method`. -/
  Method : String
  /-- Function `req.Header.Get`. -/
  headerGet : String → String
  /-- Function `req.URL.Query().Get`. -/
  queryGet : String → String

/-- Body of the tag loop of `processEntries` for one iterated value `v`. -/
def tagLoopBody (req : Request) (tags : GoMap String) (v : String) : GoMap String :=
  let headerValue := req.headerGet v
  let tags := if headerValue ≠ "" then GoMap.set tags v headerValue else tags
  -- request values override header values
  let requestValue := req.queryGet v
  if requestValue ≠ "" then GoMap.set tags v requestValue else tags

/-- Tag block of `processEntries` (load.go lines 92-104).  The declaration
`tags := make(map[string]string)` shadows the parameter `tags []string`
inside the entry loop, so `for _, v := range tags` iterates over the values
of the map just created; the parameter is not read. -/
def extractTags (req : Request) (_tagsParam : List String) : GoMap String :=
  let tags : GoMap String := []
  (GoMap.rangeValues tags).foldl (tagLoopBody req) tags

/-- What the outside world answers for the request at one entry index:
the two `time.Now()` readings (nanoseconds) around `httpClient.Do`, and its
result (`none`: an error; `some code`: a response with that status code). -/
structure Dispatch where
  startTime : Int
  endTime : Int
  resp : Option Int
  deriving DecidableEq, Repr

/-- Go `endTime.Sub(startTime)`: the difference in nanoseconds, saturated to
the range of `time.Duration` (int64). -/
def timeSub (endTime startTime : Int) : Int :=
  let d := endTime - startTime
  if d > 9223372036854775807 then 9223372036854775807
  else if d < -9223372036854775808 then -9223372036854775808
  else d

/-- Expression `int(endTime.Sub(startTime) / time.Millisecond)`; Go integer
division truncates toward zero. -/
def latencyOf (d : Dispatch) : Int := Int.tdiv (timeSub d.endTime d.startTime) 1000000

/-- The measurement map `tr` as `processEntries` fills it: `tags` first, then
the seven fields, with `status` being `0` on the error path and
`resp.StatusCode` otherwise. -/
def buildMeasurement (harfile : String) (req : Request) (tags : GoMap String) (d : Dispatch)
    (status : Int) : Measurement :=
  let tr : Measurement := []
  let tr := GoMap.set tr "tags" (Value.tags tags)
  let tr := GoMap.set tr "URL" (Value.str req.URL)
  let tr := GoMap.set tr "Status" (Value.int status)
  let tr := GoMap.set tr "StartTime" (Value.time d.startTime)
  let tr := GoMap.set tr "EndTime" (Value.time d.endTime)
  let tr := GoMap.set tr "Latency" (Value.int (latencyOf d))
  let tr := GoMap.set tr "Method" (Value.str req.Method)
  GoMap.set tr "HarFile" (Value.str harfile)

/-- Modelled from the spec: `check(err)` is defined outside the two source
files; the spec says a request-build failure is propagated "as a fatal
condition for that Worker".  `check err` is `some Abort.fatal` when `err` is
set and `none` otherwise. -/
def check (err : Bool) : Option Abort := if err then some Abort.fatal else none

/-- Parameters of `processEntries`, the global `useInfluxDB`, and the
request builder `EntryToRequest` (defined outside the two source files;
`none` is a returned error). -/
structure Config (Entry : Type) where
  harfile : String
  wid : Nat
  ignoreHarCookies : Bool
  tags : List String
  useInfluxDB : Bool
  EntryToRequest : Entry → Bool → Option Request

/-- What the outside world answers during one pass: the dispatch outcome of
each entry index, and the sink's behaviour at each `WritePoints` call of the
pass (numbered from 0). -/
structure World where
  dispatch : Nat → Dispatch
  sink : Nat → Sink

/-- State of one pass of `processEntries`: the pending batch `testResults`
and the arguments of the `WritePoints` calls made so far, in call order. -/
structure PassState where
  testResults : List Measurement
  written : List (List Measurement)
  deriving DecidableEq, Repr

/-- A `WritePoints(c, testResults)` call followed by the reset
`testResults = make(...)`.  When the call aborts, the pending batch is left
as the call left it. -/
def flush (w : World) (st : PassState) : PassState × Option Abort :=
  let r := WritePoints (w.sink st.written.length) st.testResults
  match r.status with
  | some a => ({ testResults := r.tr, written := st.written ++ [st.testResults] }, some a)
  | none => ({ testResults := [], written := st.written ++ [st.testResults] }, none)

/-- Body of the entry loop of `processEntries` for the entry at index `idx`.
The log lines, `jar.SetCookies`, the bare `req.URL.Query()` and
`resp.Body.Close()` leave `testResults` and the `WritePoints` calls alone;
their effect on the round trip is part of the `dispatch` oracle. -/
def stepEntry {Entry : Type} (cfg : Config Entry) (w : World) (idx : Nat) (entry : Entry)
    (st : PassState) : PassState × Option Abort :=
  match cfg.EntryToRequest entry cfg.ignoreHarCookies with
  | none => (st, check true)
  | some req =>
    let tags := extractTags req cfg.tags
    let d := w.dispatch idx
    match d.resp with
    | none =>
      let tr := buildMeasurement cfg.harfile req tags d 0
      -- continue
      ({ st with testResults := st.testResults ++ [tr] }, none)
    | some code =>
      let tr := buildMeasurement cfg.harfile req tags d code
      let st1 : PassState := { st with testResults := st.testResults ++ [tr] }
      if cfg.useInfluxDB && idx % 50 == 0 then flush w st1 else (st1, none)

/-- The loop `for idx, entry := range har.Log.Entries`, from index `idx`. -/
def entryLoop {Entry : Type} (cfg : Config Entry) (w : World) (idx : Nat) (entries : List Entry)
    (st : PassState) : PassState × Option Abort :=
  match entries with
  | [] => (st, none)
  | entry :: rest =>
    match stepEntry cfg w idx entry st with
    | (st1, some a) => (st1, some a)
    | (st1, none) => entryLoop cfg w (idx + 1) rest st1

/-- The entry loop of one pass, started with an empty pending batch. -/
def passLoop {Entry : Type} (cfg : Config Entry) (w : World) (entries : List Entry) :
    PassState × Option Abort :=
  entryLoop cfg w 0 entries { testResults := [], written := [] }

/-- One iteration of the outer `for` of `processEntries`: a fresh batch, the
entry loop, and the flush at the end of the pass.  With the sink disabled
the state returned still holds the pending batch of the pass, which the next
iteration replaces by a fresh one. -/
def pass {Entry : Type} (cfg : Config Entry) (w : World) (entries : List Entry) :
    PassState × Option Abort :=
  match passLoop cfg w entries with
  | (st, some a) => (st, some a)
  | (st, none) => if cfg.useInfluxDB then flush w st else (st, none)

/-- The outer `for` of `processEntries`, run for at most `fuel` passes (the
source loop has no exit): the number of passes completed (`iter`), the
`WritePoints` arguments of all passes in call order, and the abort that
stopped the worker, if any.  `worlds i` is the world met by pass `i`. -/
def processEntries {Entry : Type} (cfg : Config Entry) (worlds : Nat → World)
    (entries : List Entry) : Nat → Nat → List (List Measurement) →
    Nat × List (List Measurement) × Option Abort
  | 0, iter, acc => (iter, acc, none)
  | fuel + 1, iter, acc =>
    match pass cfg (worlds iter) entries with
    | (st, some a) => (iter, acc ++ st.written, some a)
    | (st, none) => processEntries cfg worlds entries fuel (iter + 1) (acc ++ st.written)

/-- A `sync.WaitGroup`, reduced to its counter. -/
structure WaitGroup where
  counter : Int
  deriving DecidableEq, Repr

/-- Method `wg.Add(delta)`.  Its panic on a negative counter is left out:
the launch loop only adds a positive `workers`. -/
def WaitGroup.Add (wg : WaitGroup) (delta : Int) : WaitGroup := { counter := wg.counter + delta }

/-- Method `wg.Done()`, which is `wg.Add(-1)`. -/
def WaitGroup.Done (wg : WaitGroup) : WaitGroup := wg.Add (-1)

/-- Applies `wg.Done()` `n` times. -/
def WaitGroup.doneTimes (wg : WaitGroup) : Nat → WaitGroup
  | 0 => wg
  | n + 1 => (wg.Done).doneTimes n

/-- State of the launch loop of `LoadTest`: the wait group and the worker
ids of the `processEntries` goroutines started so far. -/
structure LaunchState where
  wg : WaitGroup
  started : List Nat
  deriving DecidableEq, Repr

/-- The loop `for i := 0; i < workers; i++ { wg.Add(workers); go
processEntries(..., i, ...) }` of `LoadTest`, from `i` on.  The first
argument bounds the number of iterations. -/
def launchLoop (workers : Int) : Nat → Nat → LaunchState → LaunchState
  | 0, _, st => st
  | fuel + 1, i, st =>
    if (i : Int) < workers then
      launchLoop workers fuel (i + 1)
        { wg := st.wg.Add workers, started := st.started ++ [i] }
    else st

/-- The launch loop of `LoadTest` on a fresh wait group. -/
def launch (workers : Int) : LaunchState :=
  launchLoop workers workers.toNat 0 { wg := { counter := 0 }, started := [] }

/-- The global `useInfluxDB` after the first statements of `LoadTest`:
cleared when `NewInfluxDBClient` returned an error, left alone otherwise. -/
def useInfluxDBAfterInit (useInfluxDB0 : Bool) (r : ClientResult) : Bool :=
  if r.err then false else useInfluxDB0

/-! ## Spec-side definitions and fixed inputs used in the statements -/

/-- A sink whose library calls all succeed. -/
def Sink.Healthy (s : Sink) : Prop :=
  s.newBatchPointsErr = false ∧ (∀ t f, s.newPointErr t f = false) ∧
    ∀ ps, s.writeErr ps = false

/-- Every entry of the sequence builds into a request. -/
def BuildsOk {Entry : Type} (cfg : Config Entry) (entries : List Entry) : Prop :=
  ∀ e ∈ entries, ∃ req, cfg.EntryToRequest e cfg.ignoreHarCookies = some req

/-- The Measurement of the built request `req` dispatched at entry index
`idx`: status `0` for a transport failure, the response's status code
otherwise. -/
def measurementFor {Entry : Type} (cfg : Config Entry) (w : World) (idx : Nat) (req : Request) :
    Measurement :=
  buildMeasurement cfg.harfile req (extractTags req cfg.tags) (w.dispatch idx)
    (match (w.dispatch idx).resp with
     | none => 0
     | some code => code)

/-- The spec's "one Measurement per executed request": the measurement of
the entry at index `idx`, when the entry builds. -/
def specMeasurement {Entry : Type} (cfg : Config Entry) (w : World) (idx : Nat) (entry : Entry) :
    Option Measurement :=
  match cfg.EntryToRequest entry cfg.ignoreHarCookies with
  | none => none
  | some req => some (measurementFor cfg w idx req)

/-- The spec's sequence of Measurements of a pass: the measurement of each
entry, in entry-sequence order, the first entry having index `idx`. -/
def specMeasurements {Entry : Type} (cfg : Config Entry) (w : World) :
    Nat → List Entry → List Measurement
  | _, [] => []
  | idx, entry :: rest =>
    (specMeasurement cfg w idx entry).toList ++ specMeasurements cfg w (idx + 1) rest

/-- A sink on which every library call succeeds. -/
def sinkUp : Sink :=
  { newBatchPointsErr := false, newPointErr := fun _ _ => false, now := fun _ => 0,
    writeErr := fun _ => false }

/-- A sink on which `c.Write` fails and the other library calls succeed. -/
def sinkWriteDown : Sink :=
  { newBatchPointsErr := false, newPointErr := fun _ _ => false, now := fun _ => 0,
    writeErr := fun _ => true }

/-- A request with header `X: h` and no query parameter `X`. -/
def reqHeaderOnly : Request :=
  { URL := "http://target/a", Method := "GET",
    headerGet := fun k => if k = "X" then "h" else "",
    queryGet := fun _ => "" }

/-- A request with header `X: h` and query parameter `X=q`. -/
def reqHeaderAndQuery : Request :=
  { URL := "http://target/a?X=q", Method := "GET",
    headerGet := fun k => if k = "X" then "h" else "",
    queryGet := fun k => if k = "X" then "q" else "" }

/-- A run configuration over entries that are already built requests, with
the tag name `X` configured. -/
def cfgX (useInfluxDB : Bool) : Config Request :=
  { harfile := "capture.har", wid := 0, ignoreHarCookies := false, tags := ["X"],
    useInfluxDB := useInfluxDB, EntryToRequest := fun r _ => some r }

/-- A world in which every request fails at transport level after 5 ms. -/
def worldAllFail : World :=
  { dispatch := fun _ => { startTime := 0, endTime := 5000000, resp := none },
    sink := fun _ => sinkUp }

/-- A world in which every request is answered `200` after 5 ms. -/
def worldAllOk : World :=
  { dispatch := fun _ => { startTime := 0, endTime := 5000000, resp := some 200 },
    sink := fun _ => sinkUp }

/-- A world in which every request is answered `200` and every `c.Write`
fails. -/
def worldSinkDown : World :=
  { dispatch := fun _ => { startTime := 0, endTime := 5000000, resp := some 200 },
    sink := fun _ => sinkWriteDown }

/-- A world in which every request fails at transport level, the clock
reading 1 000 000 ns before the dispatch and 8 500 000 ns after it (7.5 ms). -/
def worldFailAfter7ms : World :=
  { dispatch := fun _ => { startTime := 1000000, endTime := 8500000, resp := none },
    sink := fun _ => sinkUp }

/-- A world in which the request at index 1 fails at transport level and
every other request is answered `200`, on a working sink. -/
def worldSecondFails : World :=
  { dispatch := fun i =>
      { startTime := 0, endTime := 5000000, resp := if i = 1 then none else some 200 },
    sink := fun _ => sinkUp }

/-- A measurement of two keys, as a small `WritePoints` input. -/
def sampleMeasurement : Measurement :=
  [("tags", Value.tags [("X", "h")]), ("Status", Value.int 200)]

/-- What `WritePoints` does to one map when it returns: the key `tags` is
gone and every other key keeps its value. -/
def TagsDeleted (before after : Measurement) : Prop :=
  GoMap.get? after "tags" = none ∧ ∀ k, k ≠ "tags" → GoMap.get? after k = GoMap.get? before k

/-- A measurement whose `tags` key holds a `map[string]string`, so that the
type assertion of `WritePoints` succeeds on it. -/
def WellTagged (m : Measurement) : Prop := ∃ t, GoMap.get? m "tags" = some (Value.tags t)

/-- Every `WritePoints` call of the trace returned, except possibly the last
one when the run was aborted. -/
def CallsReturned (w : World) (st : PassState) (r : Option Abort) : Prop :=
  ∀ k b, st.written[k]? = some b → (k + 1 < st.written.length ∨ r = none) →
    (WritePoints (w.sink k) b).status = none

/-! ## Lemmas on maps -/

theorem GoMap.get?_delete_self {V : Type} (m : GoMap V) (k : String) :
    GoMap.get? (GoMap.delete m k) k = none := by
  induction m with
  | nil => rfl
  | cons p rest ih =>
    obtain ⟨k', v'⟩ := p
    by_cases h : k' = k
    · simp [GoMap.delete, h, ih]
    · simp [GoMap.delete, GoMap.get?, h, ih]

theorem GoMap.get?_delete_other {V : Type} (m : GoMap V) (k j : String) (hj : j ≠ k) :
    GoMap.get? (GoMap.delete m k) j = GoMap.get? m j := by
  induction m with
  | nil => rfl
  | cons p rest ih =>
    obtain ⟨k', v'⟩ := p
    by_cases h : k' = k
    · subst h
      have hk : ¬ k' = j := fun e => hj e.symm
      simp [GoMap.delete, GoMap.get?, ih, hk]
    · by_cases h2 : k' = j
      · subst h2
        simp [GoMap.delete, GoMap.get?, h]
      · simp [GoMap.delete, GoMap.get?, h, h2, ih]

theorem GoMap.get?_set_self {V : Type} (m : GoMap V) (k : String) (v : V) :
    GoMap.get? (GoMap.set m k v) k = some v := by
  induction m with
  | nil => simp [GoMap.set, GoMap.get?]
  | cons p rest ih =>
    obtain ⟨k', v'⟩ := p
    by_cases h : k' = k
    · simp [GoMap.set, GoMap.get?, h]
    · simp [GoMap.set, GoMap.get?, h, ih]

theorem GoMap.get?_set_other {V : Type} (m : GoMap V) (k j : String) (v : V) (hj : j ≠ k) :
    GoMap.get? (GoMap.set m k v) j = GoMap.get? m j := by
  induction m with
  | nil =>
    have : ¬ k = j := fun e => hj e.symm
    simp [GoMap.set, GoMap.get?, this]
  | cons p rest ih =>
    obtain ⟨k', v'⟩ := p
    by_cases h : k' = k
    · subst h
      have hk : ¬ k' = j := fun e => hj e.symm
      simp [GoMap.set, GoMap.get?, hk]
    · by_cases h2 : k' = j
      · subst h2
        simp [GoMap.set, GoMap.get?, h]
      · simp [GoMap.set, GoMap.get?, h, h2, ih]

/-! ## Lemmas on `WritePoints` -/

theorem tagsDeleted_delete (m : Measurement) : TagsDeleted m (GoMap.delete m "tags") :=
  ⟨GoMap.get?_delete_self m "tags", fun k hk => GoMap.get?_delete_other m "tags" k hk⟩

theorem WritePoints.loop_tr (s : Sink) (tr : List Measurement) :
    ∀ (i : Nat) (bp : List Point), (WritePoints.loop s i tr bp).status = none →
      (WritePoints.loop s i tr bp).tr = tr.map (fun m => GoMap.delete m "tags") := by
  induction tr with
  | nil => intro i bp _; rfl
  | cons fields rest ih =>
    intro i bp h
    unfold WritePoints.loop at h ⊢
    split at h
    · rename_i tags htags
      simp only [htags]
      by_cases hp : s.newPointErr tags (GoMap.delete fields "tags") = true
      · simp [hp] at h
      · simp only [hp] at h ⊢
        simp at h ⊢
        exact ih _ _ h
    · simp at h

theorem WritePoints_status_loop (s : Sink) (tr : List Measurement)
    (h : (WritePoints s tr).status = none) :
    s.newBatchPointsErr = false ∧ (WritePoints.loop s 0 tr []).status = none ∧
      s.writeErr (WritePoints.loop s 0 tr []).points = false ∧
      (WritePoints s tr).tr = (WritePoints.loop s 0 tr []).tr := by
  unfold WritePoints at h ⊢
  by_cases hb : s.newBatchPointsErr = true
  · simp [hb] at h
  · simp only [hb] at h ⊢
    simp only [Bool.not_eq_true] at hb
    cases hl : (WritePoints.loop s 0 tr []).status with
    | some a => simp [hl] at h
    | none =>
      simp only [hl] at h ⊢
      by_cases hw : s.writeErr (WritePoints.loop s 0 tr []).points = true
      · simp [hw] at h
      · simp only [Bool.not_eq_true] at hw
        simp [hb, hw]

theorem buildMeasurement_tags (harfile : String) (req : Request) (tags : GoMap String)
    (d : Dispatch) (status : Int) :
    GoMap.get? (buildMeasurement harfile req tags d status) "tags" = some (Value.tags tags) := by
  simp [buildMeasurement, GoMap.set, GoMap.get?]

theorem buildMeasurement_wellTagged (harfile : String) (req : Request) (tags : GoMap String)
    (d : Dispatch) (status : Int) : WellTagged (buildMeasurement harfile req tags d status) :=
  ⟨tags, buildMeasurement_tags harfile req tags d status⟩

theorem WritePoints.loop_healthy (s : Sink) (hs : s.Healthy) (tr : List Measurement)
    (ht : ∀ m ∈ tr, WellTagged m) :
    ∀ (i : Nat) (bp : List Point), (WritePoints.loop s i tr bp).status = none := by
  induction tr with
  | nil => intro i bp; rfl
  | cons fields rest ih =>
    intro i bp
    obtain ⟨t, htag⟩ := ht fields (List.mem_cons_self _ _)
    have hrest : ∀ m ∈ rest, WellTagged m := fun m hm => ht m (List.mem_cons_of_mem _ hm)
    unfold WritePoints.loop
    simp only [htag, hs.2.1]
    simp
    exact ih hrest _ _

theorem WritePoints_healthy (s : Sink) (hs : s.Healthy) (tr : List Measurement)
    (ht : ∀ m ∈ tr, WellTagged m) : (WritePoints s tr).status = none := by
  unfold WritePoints
  simp [hs.1, hs.2.2, WritePoints.loop_healthy s hs tr ht 0 []]

theorem sinkUp_healthy : sinkUp.Healthy := ⟨rfl, fun _ _ => rfl, fun _ => rfl⟩

/-! ## Lemmas on the pass -/

theorem flush_healthy (w : World) (st : PassState) (hs : (w.sink st.written.length).Healthy)
    (ht : ∀ m ∈ st.testResults, WellTagged m) :
    flush w st = ({ testResults := [], written := st.written ++ [st.testResults] }, none) := by
  unfold flush
  simp [WritePoints_healthy _ hs _ ht]

theorem specMeasurement_of_build {Entry : Type} (cfg : Config Entry) (w : World) (idx : Nat)
    (entry : Entry) (req : Request)
    (hreq : cfg.EntryToRequest entry cfg.ignoreHarCookies = some req) :
    specMeasurement cfg w idx entry =
      some (buildMeasurement cfg.harfile req (extractTags req cfg.tags) (w.dispatch idx)
        (match (w.dispatch idx).resp with
         | none => 0
         | some code => code)) := by
  simp [specMeasurement, measurementFor, hreq]

theorem specMeasurement_eq_for {Entry : Type} (cfg : Config Entry) (w : World) (idx : Nat)
    (entry : Entry) (req : Request)
    (hreq : cfg.EntryToRequest entry cfg.ignoreHarCookies = some req) :
    specMeasurement cfg w idx entry = some (measurementFor cfg w idx req) := by
  simp [specMeasurement, hreq]

theorem specMeasurements_length {Entry : Type} (cfg : Config Entry) (w : World)
    (entries : List Entry) (hb : BuildsOk cfg entries) :
    ∀ idx, (specMeasurements cfg w idx entries).length = entries.length := by
  induction entries with
  | nil => intro idx; rfl
  | cons entry rest ih =>
    intro idx
    obtain ⟨req, hreq⟩ := hb entry (List.mem_cons_self _ _)
    have hrest : BuildsOk cfg rest := fun e he => hb e (List.mem_cons_of_mem _ he)
    simp [specMeasurements, specMeasurement_of_build cfg w idx entry req hreq, ih hrest]

/-- With healthy sinks, one loop step ends without abort, keeps the pending
batch well tagged and adds exactly the entry's measurement to what has been
written or is pending. -/
theorem stepEntry_healthy {Entry : Type} (cfg : Config Entry) (w : World)
    (hs : ∀ k, (w.sink k).Healthy) (idx : Nat) (entry : Entry) (req : Request)
    (hreq : cfg.EntryToRequest entry cfg.ignoreHarCookies = some req) (st : PassState)
    (ht : ∀ m ∈ st.testResults, WellTagged m) :
    ∃ st1, stepEntry cfg w idx entry st = (st1, none) ∧ (∀ m ∈ st1.testResults, WellTagged m) ∧
      st1.written.flatten ++ st1.testResults =
        st.written.flatten ++ st.testResults ++ (specMeasurement cfg w idx entry).toList := by
  rw [specMeasurement_of_build cfg w idx entry req hreq]
  unfold stepEntry
  simp only [hreq]
  cases hd : (w.dispatch idx).resp with
  | none =>
    refine ⟨_, rfl, ?_, ?_⟩
    · intro m hm
      rcases List.mem_append.mp hm with h | h
      · exact ht m h
      · rw [List.mem_singleton.mp h]
        exact buildMeasurement_wellTagged _ _ _ _ _
    · simp
  | some code =>
    by_cases hf : (cfg.useInfluxDB && idx % 50 == 0) = true
    · simp only [hf, if_true]
      have hwt : ∀ m ∈ st.testResults ++
          [buildMeasurement cfg.harfile req (extractTags req cfg.tags) (w.dispatch idx) code],
          WellTagged m := by
        intro m hm
        rcases List.mem_append.mp hm with h | h
        · exact ht m h
        · rw [List.mem_singleton.mp h]
          exact buildMeasurement_wellTagged _ _ _ _ _
      rw [flush_healthy w _ (hs _) hwt]
      refine ⟨_, rfl, ?_, ?_⟩
      · intro m hm
        simp at hm
      · simp
    · simp only [hf]
      refine ⟨_, rfl, ?_, ?_⟩
      · intro m hm
        rcases List.mem_append.mp hm with h | h
        · exact ht m h
        · rw [List.mem_singleton.mp h]
          exact buildMeasurement_wellTagged _ _ _ _ _
      · simp

theorem entryLoop_healthy {Entry : Type} (cfg : Config Entry) (w : World)
    (hs : ∀ k, (w.sink k).Healthy) (entries : List Entry) (hb : BuildsOk cfg entries) :
    ∀ (idx : Nat) (st : PassState), (∀ m ∈ st.testResults, WellTagged m) →
      ∃ st1, entryLoop cfg w idx entries st = (st1, none) ∧
        (∀ m ∈ st1.testResults, WellTagged m) ∧
        st1.written.flatten ++ st1.testResults =
          st.written.flatten ++ st.testResults ++ specMeasurements cfg w idx entries := by
  induction entries with
  | nil =>
    intro idx st ht
    exact ⟨st, rfl, ht, by simp [specMeasurements]⟩
  | cons entry rest ih =>
    intro idx st ht
    obtain ⟨req, hreq⟩ := hb entry (List.mem_cons_self _ _)
    have hrest : BuildsOk cfg rest := fun e he => hb e (List.mem_cons_of_mem _ he)
    obtain ⟨st1, h1, ht1, hj1⟩ := stepEntry_healthy cfg w hs idx entry req hreq st ht
    obtain ⟨st2, h2, ht2, hj2⟩ := ih hrest (idx + 1) st1 ht1
    refine ⟨st2, ?_, ht2, ?_⟩
    · simp only [entryLoop, h1]
      exact h2
    · rw [hj2, hj1]
      simp [specMeasurements]

theorem specMeasurements_getElem? {Entry : Type} (cfg : Config Entry) (w : World)
    (entries : List Entry) (hb : BuildsOk cfg entries) :
    ∀ (idx i : Nat) (e : Entry), entries[i]? = some e →
      (specMeasurements cfg w idx entries)[i]? = specMeasurement cfg w (idx + i) e := by
  induction entries with
  | nil => intro idx i e h; simp at h
  | cons entry rest ih =>
    intro idx i e h
    obtain ⟨req, hreq⟩ := hb entry (List.mem_cons_self _ _)
    have hrest : BuildsOk cfg rest := fun e he => hb e (List.mem_cons_of_mem _ he)
    cases i with
    | zero =>
      simp at h
      subst h
      simp [specMeasurements, specMeasurement_of_build cfg w idx entry req hreq]
    | succ j =>
      simp at h
      have := ih hrest (idx + 1) j e h
      simp [specMeasurements, specMeasurement_of_build cfg w idx entry req hreq, this]
      congr 1
      omega

/-- With the sink disabled the entry loop only appends: nothing is written
and the pending batch grows by one measurement per entry. -/
theorem entryLoop_noSink {Entry : Type} (cfg : Config Entry) (w : World)
    (hu : cfg.useInfluxDB = false) (entries : List Entry) (hb : BuildsOk cfg entries) :
    ∀ (idx : Nat) (st : PassState), entryLoop cfg w idx entries st =
      ({ testResults := st.testResults ++ specMeasurements cfg w idx entries,
         written := st.written }, none) := by
  induction entries with
  | nil => intro idx st; simp [entryLoop, specMeasurements]
  | cons entry rest ih =>
    intro idx st
    obtain ⟨req, hreq⟩ := hb entry (List.mem_cons_self _ _)
    have hrest : BuildsOk cfg rest := fun e he => hb e (List.mem_cons_of_mem _ he)
    have hstep : stepEntry cfg w idx entry st =
        ({ testResults := st.testResults ++ (specMeasurement cfg w idx entry).toList,
           written := st.written }, none) := by
      rw [specMeasurement_of_build cfg w idx entry req hreq]
      unfold stepEntry
      simp only [hreq, hu]
      cases hd : (w.dispatch idx).resp <;> simp
    simp only [entryLoop, hstep]
    rw [ih hrest]
    simp [specMeasurements]

theorem pass_noSink {Entry : Type} (cfg : Config Entry) (w : World)
    (hu : cfg.useInfluxDB = false) (entries : List Entry) (hb : BuildsOk cfg entries) :
    pass cfg w entries =
      ({ testResults := specMeasurements cfg w 0 entries, written := [] }, none) := by
  simp [pass, passLoop, entryLoop_noSink cfg w hu entries hb, hu]

theorem processEntries_noSink {Entry : Type} (cfg : Config Entry) (worlds : Nat → World)
    (hu : cfg.useInfluxDB = false) (entries : List Entry) (hb : BuildsOk cfg entries) :
    ∀ (fuel iter : Nat) (acc : List (List Measurement)),
      processEntries cfg worlds entries fuel iter acc = (iter + fuel, acc, none) := by
  intro fuel
  induction fuel with
  | zero => intro iter acc; rfl
  | succ n ih =>
    intro iter acc
    simp only [processEntries, pass_noSink cfg (worlds iter) hu entries hb]
    rw [ih]
    simp
    omega

theorem flush_of_returned (w : World) (st : PassState)
    (h : (WritePoints (w.sink st.written.length) st.testResults).status = none) :
    flush w st = ({ testResults := [], written := st.written ++ [st.testResults] }, none) := by
  unfold flush
  simp [h]

theorem flush_of_abort (w : World) (st : PassState) (a : Abort)
    (h : (WritePoints (w.sink st.written.length) st.testResults).status = some a) :
    flush w st =
      ({ testResults := (WritePoints (w.sink st.written.length) st.testResults).tr,
         written := st.written ++ [st.testResults] }, some a) := by
  unfold flush
  simp [h]

theorem flush_callsReturned (w : World) (st : PassState) (h : CallsReturned w st none) :
    CallsReturned w (flush w st).1 (flush w st).2 := by
  cases hst : (WritePoints (w.sink st.written.length) st.testResults).status with
  | none =>
    rw [flush_of_returned w st hst]
    intro k b hk _
    simp only at hk
    by_cases hlt : k < st.written.length
    · rw [List.getElem?_append_left hlt] at hk
      exact h k b hk (Or.inr rfl)
    · have hk2 := hk
      rw [List.getElem?_append_right (Nat.le_of_not_lt hlt)] at hk2
      have hlen : k - st.written.length = 0 := by
        by_contra hne
        have : ([st.testResults] : List (List Measurement))[k - st.written.length]? = none := by
          apply List.getElem?_eq_none
          simp
          omega
        rw [this] at hk2
        exact absurd hk2 (by simp)
      rw [hlen] at hk2
      simp at hk2
      have hkeq : k = st.written.length := by omega
      rw [hkeq, ← hk2]
      exact hst
  | some a =>
    rw [flush_of_abort w st a hst]
    intro k b hk hor
    simp only at hk hor
    have hlt : k < st.written.length := by
      rcases hor with h1 | h1
      · simp at h1
        exact h1
      · exact absurd h1 (by simp)
    rw [List.getElem?_append_left hlt] at hk
    exact h k b hk (Or.inr rfl)

theorem callsReturned_abort (w : World) (st : PassState) (a : Abort)
    (h : CallsReturned w st none) : CallsReturned w st (some a) :=
  fun k b hk _ => h k b hk (Or.inr rfl)

theorem stepEntry_callsReturned {Entry : Type} (cfg : Config Entry) (w : World) (idx : Nat)
    (entry : Entry) (st : PassState) (h : CallsReturned w st none) :
    CallsReturned w (stepEntry cfg w idx entry st).1 (stepEntry cfg w idx entry st).2 := by
  unfold stepEntry
  cases hreq : cfg.EntryToRequest entry cfg.ignoreHarCookies with
  | none => exact callsReturned_abort w st _ h
  | some req =>
    simp only
    cases hd : (w.dispatch idx).resp with
    | none => exact h
    | some code =>
      simp only
      split
      · exact flush_callsReturned w _ h
      · exact h

theorem entryLoop_callsReturned {Entry : Type} (cfg : Config Entry) (w : World)
    (entries : List Entry) :
    ∀ (idx : Nat) (st : PassState), CallsReturned w st none →
      CallsReturned w (entryLoop cfg w idx entries st).1 (entryLoop cfg w idx entries st).2 := by
  induction entries with
  | nil => intro idx st h; exact h
  | cons entry rest ih =>
    intro idx st h
    have hstep := stepEntry_callsReturned cfg w idx entry st h
    unfold entryLoop
    cases hs : stepEntry cfg w idx entry st with
    | mk st1 r =>
      rw [hs] at hstep
      cases r with
      | some a => exact hstep
      | none => exact ih (idx + 1) st1 hstep

theorem pass_callsReturned {Entry : Type} (cfg : Config Entry) (w : World)
    (entries : List Entry) :
    CallsReturned w (pass cfg w entries).1 (pass cfg w entries).2 := by
  have hloop := entryLoop_callsReturned cfg w entries 0 { testResults := [], written := [] }
    (fun k b hk _ => by simp at hk)
  unfold pass passLoop
  cases hs : entryLoop cfg w 0 entries { testResults := [], written := [] } with
  | mk st r =>
    rw [hs] at hloop
    cases r with
    | some a => exact hloop
    | none =>
      simp only
      split
      · exact flush_callsReturned w st hloop
      · exact hloop

/-! ## Lemmas on `strings.Replace` and the launch loop -/

theorem stringsReplaceScan_slash :
    ∀ (fuel : Nat) (n : Int) (s : List Char), n < 0 → s.length ≤ fuel →
      stringsReplaceScan ['/'] [] fuel n s = s.filter (fun c => c != '/') := by
  intro fuel
  induction fuel with
  | zero =>
    intro n s _ hlen
    have : s = [] := List.length_eq_zero.mp (Nat.le_zero.mp hlen)
    subst this
    rfl
  | succ m ih =>
    intro n s hn hlen
    cases s with
    | nil => rfl
    | cons c cs =>
      have hn0 : ¬ n = 0 := by omega
      have hcs : cs.length ≤ m := by
        simp at hlen
        exact hlen
      by_cases hc : c = '/'
      · subst hc
        simp [stringsReplaceScan, hn0, List.isPrefixOf]
        exact ih (n - 1) cs (by omega) hcs
      · have hc2 : ¬ '/' = c := fun e => hc e.symm
        simp [stringsReplaceScan, hn0, List.isPrefixOf, hc, hc2]
        exact ih n cs hn hcs

theorem stringsReplace_slash (s : String) :
    stringsReplace s "/" "" (-1) = String.mk (s.data.filter (fun c => c != '/')) := by
  have h1 : ¬ (("/" : String) = "" ∨ (-1 : Int) = 0) := by decide
  have h2 : ¬ (("/" : String).data = []) := by decide
  unfold stringsReplace
  rw [if_neg h1, if_neg h2]
  congr 1
  exact stringsReplaceScan_slash s.data.length (-1) s.data (by decide) (Nat.le_refl _)

theorem filter_slash_free (l : List Char) (h : '/' ∉ l) :
    l.filter (fun c => c != '/') = l := by
  apply List.filter_eq_self.mpr
  intro c hc
  have : c ≠ '/' := fun e => h (e ▸ hc)
  simp [this]

theorem launchLoop_spec (workers : Int) :
    ∀ (fuel i : Nat) (st : LaunchState), (i : Int) + fuel = workers →
      launchLoop workers fuel i st =
        { wg := { counter := st.wg.counter + fuel * workers },
          started := st.started ++ List.range' i fuel } := by
  intro fuel
  induction fuel with
  | zero =>
    intro i st _
    simp [launchLoop]
  | succ n ih =>
    intro i st h
    have hlt : (i : Int) < workers := by omega
    have hnext : ((i + 1 : Nat) : Int) + n = workers := by push_cast; omega
    simp only [launchLoop, hlt, if_true]
    rw [ih (i + 1) _ hnext]
    simp [WaitGroup.Add, List.range', List.append_assoc]
    ring

/-- For every worker count `w ≥ 0` the launch loop starts the workers
`0, …, w-1` and leaves the wait-group counter at `w * w`. -/
theorem launch_counter (workers : Int) (h : 0 ≤ workers) :
    (launch workers).started = List.range workers.toNat ∧
      (launch workers).wg.counter = workers * workers := by
  have hw : ((0 : Nat) : Int) + workers.toNat = workers := by
    simp [Int.toNat_of_nonneg h]
  unfold launch
  rw [launchLoop_spec workers workers.toNat 0 _ hw]
  simp [Int.toNat_of_nonneg h, List.range_eq_range']

/-! ## The pass when every request is answered -/

theorem stepEntry_answered {Entry : Type} (cfg : Config Entry) (w : World)
    (hu : cfg.useInfluxDB = true) (hs : ∀ k, (w.sink k).Healthy) (idx : Nat) (entry : Entry)
    (req : Request) (hreq : cfg.EntryToRequest entry cfg.ignoreHarCookies = some req)
    (code : Int) (hd : (w.dispatch idx).resp = some code) (st : PassState)
    (ht : ∀ m ∈ st.testResults, WellTagged m) :
    stepEntry cfg w idx entry st =
      (if idx % 50 = 0 then
        { testResults := [],
          written := st.written ++ [st.testResults ++ [measurementFor cfg w idx req]] }
       else
        { testResults := st.testResults ++ [measurementFor cfg w idx req],
          written := st.written }, none) := by
  have hwt : ∀ m ∈ st.testResults ++ [measurementFor cfg w idx req], WellTagged m := by
    intro m hm
    rcases List.mem_append.mp hm with h | h
    · exact ht m h
    · rw [List.mem_singleton.mp h]
      exact buildMeasurement_wellTagged _ _ _ _ _
  have hm : buildMeasurement cfg.harfile req (extractTags req cfg.tags) (w.dispatch idx) code =
      measurementFor cfg w idx req := by
    simp [measurementFor, hd]
  unfold stepEntry
  simp only [hreq, hd, hu, hm]
  by_cases h0 : idx % 50 = 0
  · simp only [h0, Bool.true_and, beq_self_eq_true, if_true]
    exact flush_healthy w _ (hs _) hwt
  · simp [h0]

/-- When every request is answered, the pending batch before index `idx`
holds at most `(idx + 49) % 50` Measurements and every batch written holds
at most 50. -/
theorem entryLoop_answered {Entry : Type} (cfg : Config Entry) (w : World)
    (hu : cfg.useInfluxDB = true) (hs : ∀ k, (w.sink k).Healthy)
    (hd : ∀ i, (w.dispatch i).resp ≠ none) (entries : List Entry) (hb : BuildsOk cfg entries) :
    ∀ (idx : Nat) (st : PassState), (∀ m ∈ st.testResults, WellTagged m) →
      st.testResults.length ≤ (idx + 49) % 50 → (∀ b ∈ st.written, b.length ≤ 50) →
      (entryLoop cfg w idx entries st).2 = none ∧
        (∀ m ∈ (entryLoop cfg w idx entries st).1.testResults, WellTagged m) ∧
        (entryLoop cfg w idx entries st).1.testResults.length ≤ 49 ∧
        ∀ b ∈ (entryLoop cfg w idx entries st).1.written, b.length ≤ 50 := by
  induction entries with
  | nil =>
    intro idx st ht hlen hw
    refine ⟨rfl, ht, ?_, hw⟩
    simp only [entryLoop]
    omega
  | cons entry rest ih =>
    intro idx st ht hlen hw
    obtain ⟨req, hreq⟩ := hb entry (List.mem_cons_self _ _)
    have hrest : BuildsOk cfg rest := fun e he => hb e (List.mem_cons_of_mem _ he)
    obtain ⟨code, hcode⟩ := Option.ne_none_iff_exists'.mp (hd idx)
    have hstep := stepEntry_answered cfg w hu hs idx entry req hreq code hcode st ht
    simp only [entryLoop, hstep]
    by_cases h0 : idx % 50 = 0
    · simp only [h0, if_true]
      apply ih hrest
      · intro m hm
        simp at hm
      · simp
      · intro b hbm
        rcases List.mem_append.mp hbm with h | h
        · exact hw b h
        · rw [List.mem_singleton.mp h]
          simp
          omega
    · simp only [h0, if_false]
      apply ih hrest
      · intro m hm
        rcases List.mem_append.mp hm with h | h
        · exact ht m h
        · rw [List.mem_singleton.mp h]
          exact buildMeasurement_wellTagged _ _ _ _ _
      · simp
        omega
      · exact hw

/-- With the sink enabled and working, when every request of the pass is
answered (no transport failure), every batch handed to `WritePoints` holds at
most 50 Measurements. -/
theorem pass_answered_batches_le_50 {Entry : Type} (cfg : Config Entry) (w : World)
    (hu : cfg.useInfluxDB = true) (hs : ∀ k, (w.sink k).Healthy)
    (hd : ∀ i, (w.dispatch i).resp ≠ none) (entries : List Entry) (hb : BuildsOk cfg entries) :
    (pass cfg w entries).2 = none ∧ ∀ b ∈ (pass cfg w entries).1.written, b.length ≤ 50 := by
  obtain ⟨h1, h2, h3, h4⟩ := entryLoop_answered cfg w hu hs hd entries hb 0
    { testResults := [], written := [] } (fun m hm => by simp at hm) (by simp)
    (fun b hbm => by simp at hbm)
  cases hl : entryLoop cfg w 0 entries { testResults := [], written := [] } with
  | mk st r =>
    rw [hl] at h1 h2 h3 h4
    simp only at h1 h2 h3 h4
    subst h1
    simp only [pass, passLoop, hl, hu, if_true]
    rw [flush_healthy w st (hs _) h2]
    refine ⟨rfl, ?_⟩
    intro b hbm
    rcases List.mem_append.mp hbm with h | h
    · exact h4 b h
    · rw [List.mem_singleton.mp h]
      omega

/-- The body of the tag loop does what its comment says for the name it is
given: a non-empty query value wins, else a non-empty header value is
recorded, else the map is left alone. -/
theorem tagLoopBody_spec (req : Request) (tags : GoMap String) (v : String) :
    (req.queryGet v ≠ "" → GoMap.get? (tagLoopBody req tags v) v = some (req.queryGet v)) ∧
      (req.queryGet v = "" → req.headerGet v ≠ "" →
        GoMap.get? (tagLoopBody req tags v) v = some (req.headerGet v)) ∧
      (req.queryGet v = "" → req.headerGet v = "" → tagLoopBody req tags v = tags) := by
  refine ⟨?_, ?_, ?_⟩
  · intro hq
    simp [tagLoopBody, hq, GoMap.get?_set_self]
  · intro hq hh
    simp [tagLoopBody, hq, hh, GoMap.get?_set_self]
  · intro hq hh
    simp [tagLoopBody, hq, hh]

/-- The tag block of `processEntries` yields the empty mapping for every
request and every list of configured names. -/
theorem extractTags_eq_nil (req : Request) (names : List String) : extractTags req names = [] :=
  rfl

/-! ## The claims -/

/-- C1 (code evaluated at the failing input).  With the tag name `X`
configured, a request carrying header `X: h` (with or without the query
parameter `X=q`) gets the empty tag mapping: `X` is absent from the mapping
and the Measurement that `processEntries` appends carries `tags = {}`. -/
theorem C1_tags_empty_despite_header :
    GoMap.get? (extractTags reqHeaderOnly (cfgX true).tags) "X" = none ∧
      GoMap.get? (extractTags reqHeaderAndQuery (cfgX true).tags) "X" = none ∧
      (passLoop (cfgX false) worldAllOk [reqHeaderOnly, reqHeaderAndQuery]).1.testResults.map
        (fun m => GoMap.get? m "tags") = [some (Value.tags []), some (Value.tags [])] := by
  decide

/-- C2 (code evaluated at the failing input).  With the sink enabled and 51
entries whose requests all fail at transport level, the pass makes a single
`WritePoints` call, at the end of the pass, with a batch of 51 Measurements. -/
theorem C2_batch_of_51 :
    (pass (cfgX true) worldAllFail (List.replicate 51 reqHeaderOnly)).2 = none ∧
      (pass (cfgX true) worldAllFail (List.replicate 51 reqHeaderOnly)).1.written.map
        List.length = [51] := by
  decide

/-- C3 (code evaluated at the failing inputs).  With the sink enabled, the
entry loop over a single answered request hands `WritePoints` a batch of one
Measurement (index 0) and leaves the pending batch empty; and the entry loop
over 50 requests that all fail at transport level makes no `WritePoints`
call although the pending batch has reached 50 Measurements. -/
theorem C3_mid_pass_flush_of_one :
    (passLoop (cfgX true) worldAllOk [reqHeaderOnly]).1.written.map List.length = [1] ∧
      (passLoop (cfgX true) worldAllOk [reqHeaderOnly]).1.testResults = [] ∧
      (passLoop (cfgX true) worldAllFail (List.replicate 50 reqHeaderOnly)).1.written = [] ∧
      (passLoop (cfgX true) worldAllFail
        (List.replicate 50 reqHeaderOnly)).1.testResults.length = 50 := by
  decide

/-- On the error path the loop body appends one Measurement with `Status = 0`
and the other fields set from the request and the clock readings (the
latency being the saturated difference of the readings divided by 10^6,
truncated), makes no `WritePoints` call and does not abort, and the entry
loop goes on with the next entry. -/
theorem stepEntry_transport_error {Entry : Type} (cfg : Config Entry) (w : World)
    (idx : Nat) (entry : Entry) (rest : List Entry) (st : PassState) (req : Request)
    (hreq : cfg.EntryToRequest entry cfg.ignoreHarCookies = some req)
    (herr : (w.dispatch idx).resp = none) :
    ∃ m : Measurement,
      stepEntry cfg w idx entry st =
        ({ testResults := st.testResults ++ [m], written := st.written }, none) ∧
      entryLoop cfg w idx (entry :: rest) st =
        entryLoop cfg w (idx + 1) rest
          { testResults := st.testResults ++ [m], written := st.written } ∧
      GoMap.get? m "Status" = some (Value.int 0) ∧
      GoMap.get? m "URL" = some (Value.str req.URL) ∧
      GoMap.get? m "Latency" = some (Value.int
        (Int.tdiv (timeSub (w.dispatch idx).endTime (w.dispatch idx).startTime) 1000000)) ∧
      GoMap.get? m "Method" = some (Value.str req.Method) ∧
      GoMap.get? m "HarFile" = some (Value.str cfg.harfile) ∧
      GoMap.get? m "StartTime" = some (Value.time (w.dispatch idx).startTime) ∧
      GoMap.get? m "EndTime" = some (Value.time (w.dispatch idx).endTime) ∧
      GoMap.get? m "tags" = some (Value.tags []) := by
  have hstep : stepEntry cfg w idx entry st =
      ({ testResults := st.testResults ++
          [buildMeasurement cfg.harfile req (extractTags req cfg.tags) (w.dispatch idx) 0],
         written := st.written }, none) := by
    unfold stepEntry
    simp only [hreq, herr]
  refine ⟨buildMeasurement cfg.harfile req (extractTags req cfg.tags) (w.dispatch idx) 0,
    hstep, ?_, ?_, ?_, ?_, ?_, ?_, ?_, ?_, ?_⟩
  · simp only [entryLoop, hstep]
  all_goals simp [buildMeasurement, GoMap.set, GoMap.get?, latencyOf, extractTags_eq_nil]

/-- C4 (code evaluated at the failing input).  With the tag name `X`
configured, a request with header `X: h` and query parameter `X=q` whose
dispatch fails at transport level, 7.5 ms after it started, gets a
Measurement with `Status = 0`, the URL, the two clock readings, `Latency = 7`,
the method and the capture file, but with an empty tag mapping: the tags are
not populated from the request.  The loop does go on: the next entry, which
fails too, gets its Measurement in the same pass, and no abort is raised. -/
theorem C4_failed_request_measurement_has_no_tags :
    stepEntry (cfgX true) worldFailAfter7ms 0 reqHeaderAndQuery
        { testResults := [], written := [] } =
      ({ testResults :=
          [[("tags", Value.tags []), ("URL", Value.str "http://target/a?X=q"),
            ("Status", Value.int 0), ("StartTime", Value.time 1000000),
            ("EndTime", Value.time 8500000), ("Latency", Value.int 7),
            ("Method", Value.str "GET"), ("HarFile", Value.str "capture.har")]],
         written := [] }, none) ∧
      (passLoop (cfgX true) worldFailAfter7ms [reqHeaderAndQuery, reqHeaderOnly]).2 = none ∧
      (passLoop (cfgX true) worldFailAfter7ms [reqHeaderAndQuery, reqHeaderOnly]).1.testResults.map
        (fun m => (GoMap.get? m "Status", GoMap.get? m "URL", GoMap.get? m "tags")) =
        [(some (Value.int 0), some (Value.str "http://target/a?X=q"), some (Value.tags [])),
         (some (Value.int 0), some (Value.str "http://target/a"), some (Value.tags []))] := by
  decide

theorem WritePoints_write_error (s : Sink) (tr : List Measurement)
    (hw : s.writeErr (WritePoints.loop s 0 tr []).points = true) :
    (WritePoints s tr).status ≠ none := by
  intro h
  have h3 := (WritePoints_status_loop s tr h).2.2.1
  rw [hw] at h3
  exact absurd h3 (by simp)

theorem WritePoints_write_error_fatal (s : Sink) (tr : List Measurement)
    (hw : s.writeErr (WritePoints.loop s 0 tr []).points = true)
    (hb : s.newBatchPointsErr = false) (hl : (WritePoints.loop s 0 tr []).status = none) :
    (WritePoints s tr).status = some Abort.fatal := by
  unfold WritePoints
  simp [hb, hl, hw]

/-- C5 (counterexample).  On a sink whose `c.Write` fails, `WritePoints`
ends in `log.Fatalln` (the process exits) instead of returning; a pass over
two answered requests then stops at its first `WritePoints` call, whereas
with a working sink the same pass makes two calls. -/
theorem C5_write_error_exits_example :
    (WritePoints sinkWriteDown [sampleMeasurement]).status = some Abort.fatal ∧
      (pass (cfgX true) worldSinkDown [reqHeaderOnly, reqHeaderOnly]).2 = some Abort.fatal ∧
      (pass (cfgX true) worldSinkDown [reqHeaderOnly, reqHeaderOnly]).1.written.length = 1 ∧
      (pass (cfgX true) worldAllOk [reqHeaderOnly, reqHeaderOnly]).1.written.length = 2 := by
  decide

/-- C5 (amended).  A sink write failure is fatal: for every batch, when the
client's `Write` returns an error for the points of the batch, `WritePoints`
does not return to its caller (it ends in `log.Fatalln`, which exits, once
the points were built); and in every pass in which that batch is handed to
such a sink, the pass is aborted and that batch is the last one handed to
`WritePoints`. -/
theorem C5_write_error_is_fatal (s : Sink) (tr : List Measurement)
    (hw : s.writeErr (WritePoints.loop s 0 tr []).points = true) :
    (WritePoints s tr).status ≠ none ∧
      (s.newBatchPointsErr = false → (WritePoints.loop s 0 tr []).status = none →
        (WritePoints s tr).status = some Abort.fatal) ∧
      ∀ (Entry : Type) (cfg : Config Entry) (w : World) (entries : List Entry) (k : Nat),
        w.sink k = s → (pass cfg w entries).1.written[k]? = some tr →
          (pass cfg w entries).2 ≠ none ∧ k + 1 = (pass cfg w entries).1.written.length := by
  refine ⟨WritePoints_write_error s tr hw, WritePoints_write_error_fatal s tr hw, ?_⟩
  intro Entry cfg w entries k hsink hk
  have hinv := pass_callsReturned cfg w entries k tr hk
  have hnot : ¬ (k + 1 < (pass cfg w entries).1.written.length ∨ (pass cfg w entries).2 = none) := by
    intro hor
    have := hinv hor
    rw [hsink] at this
    exact WritePoints_write_error s tr hw this
  have hlt : k < (pass cfg w entries).1.written.length := by
    by_contra hge
    have : (pass cfg w entries).1.written[k]? = none :=
      List.getElem?_eq_none (Nat.le_of_not_lt hge)
    rw [this] at hk
    exact absurd hk (by simp)
  constructor
  · exact fun h => hnot (Or.inr h)
  · have : ¬ k + 1 < (pass cfg w entries).1.written.length := fun h => hnot (Or.inl h)
    omega

/-- Witness of C5: the first batch of a pass over two answered requests,
handed to a sink whose `c.Write` fails. -/
theorem C5_write_error_is_fatal_witness :
    sinkWriteDown.writeErr
        (WritePoints.loop sinkWriteDown 0 [measurementFor (cfgX true) worldSinkDown 0 reqHeaderOnly]
          []).points = true ∧
      (WritePoints sinkWriteDown [measurementFor (cfgX true) worldSinkDown 0 reqHeaderOnly]).status
        = some Abort.fatal ∧
      (pass (cfgX true) worldSinkDown [reqHeaderOnly, reqHeaderOnly]).2 ≠ none ∧
      0 + 1 = (pass (cfgX true) worldSinkDown [reqHeaderOnly, reqHeaderOnly]).1.written.length :=
  have h := C5_write_error_is_fatal sinkWriteDown
    [measurementFor (cfgX true) worldSinkDown 0 reqHeaderOnly] rfl
  ⟨rfl, h.2.1 rfl (by decide),
    h.2.2 Request (cfgX true) worldSinkDown [reqHeaderOnly, reqHeaderOnly] 0 rfl (by decide)⟩

/-- C6.  When `NewInfluxDBClient` returned an error at the start of
`LoadTest`, the flag `useInfluxDB` is false, and then, for every entry
sequence whose requests build and every outcome of the requests, a pass ends
without abort, has made no `WritePoints` call, and has constructed exactly
one Measurement per entry, in entry order; over any number of passes the
worker makes no `WritePoints` call. -/
theorem C6_no_metrics_mode {Entry : Type} (env : ClientEnv) (db0 : String) (u : URL)
    (user password : String) (useInfluxDB0 : Bool) (cfg : Config Entry) (w : World)
    (worlds : Nat → World) (entries : List Entry) (fuel : Nat)
    (hret : (NewInfluxDBClient env db0 u user password).status = none ∧
      (NewInfluxDBClient env db0 u user password).err = true)
    (hcfg : cfg.useInfluxDB =
      useInfluxDBAfterInit useInfluxDB0 (NewInfluxDBClient env db0 u user password))
    (hb : BuildsOk cfg entries) :
    cfg.useInfluxDB = false ∧
      (pass cfg w entries).2 = none ∧
      (pass cfg w entries).1.written = [] ∧
      (pass cfg w entries).1.testResults.length = entries.length ∧
      (∀ (i : Nat) (e : Entry) (req : Request), entries[i]? = some e →
        cfg.EntryToRequest e cfg.ignoreHarCookies = some req →
        (pass cfg w entries).1.testResults[i]? = some (measurementFor cfg w i req)) ∧
      processEntries cfg worlds entries fuel 0 [] = (fuel, [], none) := by
  have hu : cfg.useInfluxDB = false := by
    rw [hcfg]
    simp [useInfluxDBAfterInit, hret.2]
  refine ⟨hu, ?_, ?_, ?_, ?_, ?_⟩
  · rw [pass_noSink cfg w hu entries hb]
  · rw [pass_noSink cfg w hu entries hb]
  · rw [pass_noSink cfg w hu entries hb]
    exact specMeasurements_length cfg w entries hb 0
  · intro i e req he hreq
    rw [pass_noSink cfg w hu entries hb]
    simp only
    rw [specMeasurements_getElem? cfg w entries hb 0 i e he, Nat.zero_add]
    exact specMeasurement_eq_for cfg w i e req hreq
  · rw [processEntries_noSink cfg worlds hu entries hb]
    simp

/-- Witness of C6: the database query fails at start-up, two entries. -/
theorem C6_no_metrics_mode_witness :
    (cfgX false).useInfluxDB = false ∧
      (pass (cfgX false) worldAllOk [reqHeaderOnly, reqHeaderAndQuery]).2 = none ∧
      (pass (cfgX false) worldAllOk [reqHeaderOnly, reqHeaderAndQuery]).1.written = [] ∧
      (pass (cfgX false) worldAllOk [reqHeaderOnly, reqHeaderAndQuery]).1.testResults.length =
        [reqHeaderOnly, reqHeaderAndQuery].length ∧
      (∀ (i : Nat) (e : Request) (req : Request),
        [reqHeaderOnly, reqHeaderAndQuery][i]? = some e →
        (cfgX false).EntryToRequest e (cfgX false).ignoreHarCookies = some req →
        (pass (cfgX false) worldAllOk [reqHeaderOnly, reqHeaderAndQuery]).1.testResults[i]? =
          some (measurementFor (cfgX false) worldAllOk i req)) ∧
      processEntries (cfgX false) (fun _ => worldAllOk) [reqHeaderOnly, reqHeaderAndQuery] 3 0 [] =
        (3, [], none) :=
  C6_no_metrics_mode { newHTTPClientErr := fun _ => false, queryErr := fun _ _ => true } ""
    { Scheme := "http", Hostname := "localhost", Port := "8086", Path := "/hargo" } "" "" true
    (cfgX false) worldAllOk (fun _ => worldAllOk) [reqHeaderOnly, reqHeaderAndQuery] 3
    (by decide) (by decide) (fun e _ => ⟨e, rfl⟩)

/-- C7 (counterexample).  `WritePoints` returns on a batch of one
measurement that had the key `tags`, and the caller's map has lost that key. -/
theorem C7_tags_key_deleted_example :
    (WritePoints sinkUp [sampleMeasurement]).status = none ∧
      [sampleMeasurement].map (fun m => GoMap.get? m "tags") =
        [some (Value.tags [("X", "h")])] ∧
      (WritePoints sinkUp [sampleMeasurement]).tr.map (fun m => GoMap.get? m "tags") = [none] := by
  decide

/-- C7 (amended).  When `WritePoints` returns, each measurement map of the
batch has lost its key `tags` and has, for every other key, the value it had
when the call was made. -/
theorem C7_only_tags_deleted (s : Sink) (tr : List Measurement)
    (h : (WritePoints s tr).status = none) :
    List.Forall₂
      (fun before after => GoMap.get? after "tags" = none ∧
        ∀ k, k ≠ "tags" → GoMap.get? after k = GoMap.get? before k)
      tr (WritePoints s tr).tr := by
  obtain ⟨_, hl, _, htr⟩ := WritePoints_status_loop s tr h
  rw [htr, WritePoints.loop_tr s tr 0 [] hl]
  rw [List.forall₂_map_right_iff]
  apply List.forall₂_same.mpr
  intro m _
  exact tagsDeleted_delete m

/-- Witness of C7: a batch of one measurement on a working sink. -/
theorem C7_only_tags_deleted_witness :
    (WritePoints sinkUp [sampleMeasurement]).status = none ∧
      List.Forall₂
        (fun before after => GoMap.get? after "tags" = none ∧
          ∀ k, k ≠ "tags" → GoMap.get? after k = GoMap.get? before k)
        [sampleMeasurement] (WritePoints sinkUp [sampleMeasurement]).tr :=
  ⟨by decide, C7_only_tags_deleted sinkUp [sampleMeasurement] (by decide)⟩

/-- C8.  Whenever `NewInfluxDBClient` gets past the creation of the client,
the database name it sets is the URL path with every `/` removed: it
contains no `/`, and for a path `/name` with `name` free of `/` it is `name`.
Scheme, host, port and credentials play no part. -/
theorem C8_db_name_from_path (env : ClientEnv) (db0 : String) (u : URL) (user password : String)
    (h : (NewInfluxDBClient env db0 u user password).status = none) :
    (NewInfluxDBClient env db0 u user password).db =
        String.mk (u.Path.data.filter (fun c => c != '/')) ∧
      '/' ∉ (NewInfluxDBClient env db0 u user password).db.data ∧
      ∀ name : String, '/' ∉ name.data → u.Path = "/" ++ name →
        (NewInfluxDBClient env db0 u user password).db = name := by
  have hdb : (NewInfluxDBClient env db0 u user password).db =
      String.mk (u.Path.data.filter (fun c => c != '/')) := by
    unfold NewInfluxDBClient at h ⊢
    by_cases hc : env.newHTTPClientErr
        (funcName (u.Scheme ++ "://" ++ u.Hostname ++ ":" ++ u.Port) user password) = true
    · simp [hc] at h
    · simp only [Bool.not_eq_true] at hc
      simp only [hc, Bool.false_eq_true, if_false]
      split <;> exact stringsReplace_slash u.Path
  refine ⟨hdb, ?_, ?_⟩
  · rw [hdb]
    intro hmem
    have := (List.mem_filter.mp hmem).2
    simp at this
  · intro name hname hpath
    rw [hdb, hpath]
    have hd : (("/" : String) ++ name).data = '/' :: name.data := by
      rw [String.data_append]
      rfl
    rw [hd]
    simp [filter_slash_free name.data hname]

/-- Witness of C8: the URL `http://localhost:8086/hargo`. -/
theorem C8_db_name_from_path_witness :
    (NewInfluxDBClient { newHTTPClientErr := fun _ => false, queryErr := fun _ _ => false } ""
        { Scheme := "http", Hostname := "localhost", Port := "8086", Path := "/hargo" }
        "" "").status = none ∧
      (NewInfluxDBClient { newHTTPClientErr := fun _ => false, queryErr := fun _ _ => false } ""
        { Scheme := "http", Hostname := "localhost", Port := "8086", Path := "/hargo" }
        "" "").db = "hargo" :=
  ⟨by decide,
    (C8_db_name_from_path { newHTTPClientErr := fun _ => false, queryErr := fun _ _ => false } ""
      { Scheme := "http", Hostname := "localhost", Port := "8086", Path := "/hargo" } "" ""
      (by decide)).2.2 "hargo" (by decide) (by decide)⟩

/-- C9 (counterexample).  With the sink enabled and `c.Write` failing, a
pass over two answered requests is aborted at its first `WritePoints` call:
the batches handed over hold one Measurement for two entries. -/
theorem C9_sink_down_loses_measurement_example :
    (cfgX true).useInfluxDB = true ∧
      (pass (cfgX true) worldSinkDown [reqHeaderOnly, reqHeaderAndQuery]).2 = some Abort.fatal ∧
      (pass (cfgX true) worldSinkDown [reqHeaderOnly, reqHeaderAndQuery]).1.written.flatten.length
        = 1 ∧
      [reqHeaderOnly, reqHeaderAndQuery].length = 2 := by
  decide

/-- C9 (amended).  With the sink enabled and every call of the sink's client
library succeeding, for every entry sequence whose requests build and every
pattern of transport successes and failures, a pass ends without abort and
the in-order concatenation of the batches it handed to `WritePoints` has
exactly one Measurement per entry, the one at position `i` being the
Measurement of entry `i`; nothing is left pending. -/
theorem C9_batches_concatenate_to_pass {Entry : Type} (cfg : Config Entry) (w : World)
    (entries : List Entry) (hu : cfg.useInfluxDB = true) (hb : BuildsOk cfg entries)
    (hs : ∀ k, (w.sink k).Healthy) :
    (pass cfg w entries).2 = none ∧
      (pass cfg w entries).1.written.flatten.length = entries.length ∧
      (∀ (i : Nat) (e : Entry) (req : Request), entries[i]? = some e →
        cfg.EntryToRequest e cfg.ignoreHarCookies = some req →
        (pass cfg w entries).1.written.flatten[i]? = some (measurementFor cfg w i req)) ∧
      (pass cfg w entries).1.testResults = [] := by
  obtain ⟨st1, h1, ht1, hj1⟩ := entryLoop_healthy cfg w hs entries hb 0
    { testResults := [], written := [] } (fun m hm => by simp at hm)
  have hpass : pass cfg w entries =
      ({ testResults := [], written := st1.written ++ [st1.testResults] }, none) := by
    simp only [pass, passLoop, h1, hu, if_true]
    exact flush_healthy w st1 (hs _) ht1
  have hflat : (pass cfg w entries).1.written.flatten = specMeasurements cfg w 0 entries := by
    rw [hpass]
    simp at hj1
    simp [hj1]
  refine ⟨by rw [hpass], ?_, ?_, by rw [hpass]⟩
  · rw [hflat]
    exact specMeasurements_length cfg w entries hb 0
  · intro i e req he hreq
    rw [hflat, specMeasurements_getElem? cfg w entries hb 0 i e he, Nat.zero_add]
    exact specMeasurement_eq_for cfg w i e req hreq

/-- Witness of C9: three requests, the second failing at transport level,
on a working sink. -/
theorem C9_batches_concatenate_to_pass_witness :
    (pass (cfgX true) worldSecondFails [reqHeaderOnly, reqHeaderAndQuery, reqHeaderOnly]).2
        = none ∧
      (pass (cfgX true) worldSecondFails
        [reqHeaderOnly, reqHeaderAndQuery, reqHeaderOnly]).1.written.flatten.length = 3 ∧
      (pass (cfgX true) worldSecondFails
        [reqHeaderOnly, reqHeaderAndQuery, reqHeaderOnly]).1.written.flatten[1]? =
        some (measurementFor (cfgX true) worldSecondFails 1 reqHeaderAndQuery) :=
  have h := C9_batches_concatenate_to_pass (cfgX true) worldSecondFails
    [reqHeaderOnly, reqHeaderAndQuery, reqHeaderOnly] rfl (fun e _ => ⟨e, rfl⟩)
    (fun _ => sinkUp_healthy)
  ⟨h.1, h.2.1, h.2.2.1 1 reqHeaderAndQuery reqHeaderAndQuery rfl rfl⟩

/-- C10 (code evaluated at the failing input).  For two workers the launch
loop starts the workers 0 and 1 and leaves the wait-group counter at 4, so
after both workers have called `Done` the counter is 2, not 0. -/
theorem C10_counter_after_launch_of_two :
    (launch 2).started = [0, 1] ∧ (launch 2).wg.counter = 4 ∧
      ((launch 2).wg.doneTimes 2).counter = 2 := by
  decide

end Hargo
